import Mathlib

/-!
Verification development for the Discord Twitter/X link bot.

The core logic of the bot (main.go and the two earlier revisions kept in the
repository) is embedded shallowly over `List Char`:

* `modifyTwitterLinks` / `modifySingleLink` — the link rewriter.  The Go
  code drives it with the regular expression
  `(<)?https?://(www\.)?(twitter\.com|x\.com)/[^/]+/status/\d+(\?[^\s<>]*)?([^<\s]*)>?`
  and `regexp.ReplaceAllStringFunc`.  The Go regexp engine uses
  leftmost-first (Perl-style) matching; for this particular pattern the
  match at a given start position is unique, because every point where the
  engine could backtrack is forced (see the comments on `matchCoreRest`),
  so the matcher is embedded as a deterministic function.
* `containsTwitterLink` — the detection gate, regular expression
  `https?:\/\/(www\.)?(twitter\.com|x\.com)\/[a-zA-Z0-9_]+\/status\/[0-9]+`,
  used via `MatchString` (existence of a match at some position).
* `isTwitterEmbed` / `hasValidTwitterEmbed` — the preview classifier of
  main.go; `isWorkingTwitterEmbedP1` is the revision kept in
  src/unnamed/part_001 and `isWorkingTwitterEmbedP2`,
  `isWorkingTwitterAttachment`, `hasValidTwitterPreview` the revision in
  src/unnamed/part_002.
* `messageReply` / `messageReplyP2` — the pure decision core of the two
  `messageCreate` handlers: which text, if any, the bot sends back.
-/

/-- RE2 character class `\s` (Perl whitespace): tab, newline, form feed,
carriage return, space. -/
def isSpaceChar (c : Char) : Bool :=
  c = ' ' || c = '\t' || c = '\n' || c = '\x0c' || c = '\r'

/-- Character class `[a-zA-Z0-9_]` of the detection-gate pattern. -/
def isWordChar (c : Char) : Bool :=
  ('a' ≤ c && c ≤ 'z') || ('A' ≤ c && c ≤ 'Z') || ('0' ≤ c && c ≤ '9') || c = '_'

/-- Character class `[0-9]` / `\d`. -/
def isDigitChar (c : Char) : Bool :=
  '0' ≤ c && c ≤ '9'

/-- Consume the literal `p` from the front of `s`; `some rest` on success.
This is the building block both for literal regex fragments and for the
Go `strings.TrimPrefix` / `strings.HasPrefix` pairs. -/
def dropLit : List Char → List Char → Option (List Char)
  | [], s => some s
  | _ :: _, [] => none
  | a :: as, b :: bs => if a = b then dropLit as bs else none

/-- Optional group `(\?[^\s<>]*)?` of the rewrite pattern.  If the text
starts with `?` the group matches (greedily); nothing after it can force
the engine to give the group up, so this is deterministic. -/
def dropQueryGroup (s : List Char) : List Char :=
  match s with
  | '?' :: t => t.dropWhile (fun c => !isSpaceChar c && c ≠ '<' && c ≠ '>')
  | _ => s

/-- Optional trailing `>?` of the rewrite pattern. -/
def dropGtOpt (s : List Char) : List Char :=
  match s with
  | '>' :: t => t
  | _ => s

/-- Tail of the rewrite pattern after the digits:
`(\?[^\s<>]*)?([^<\s]*)>?`.  All three pieces are optional/starred, so
this step always succeeds; it returns the unconsumed rest. -/
def matchTailRest (s : List Char) : List Char :=
  dropGtOpt ((dropQueryGroup s).dropWhile (fun c => !isSpaceChar c && c ≠ '<'))

/-- Pattern fragment `/[^/]+/status/\d+` followed by `matchTailRest`,
starting right after the domain.  The greedy `[^/]+` stops at the first
`/` (it cannot give characters back: the following literal starts with
`/` and the class excludes `/`); the greedy `\d+` likewise cannot give
digits back, since everything after it can match the empty string. -/
def afterDomainRest (s : List Char) : Option (List Char) :=
  match s with
  | '/' :: s5 =>
    if s5.takeWhile (· ≠ '/') = [] then none
    else
      match dropLit "/status/".toList (s5.dropWhile (· ≠ '/')) with
      | none => none
      | some s6 =>
        if s6.takeWhile isDigitChar = [] then none
        else some (matchTailRest (s6.dropWhile isDigitChar))
  | _ => none

/-- Domain alternation `(twitter\.com|x\.com)` of the rewrite pattern,
followed by `afterDomainRest`.  The alternatives start with different
characters, so leftmost-first matching is deterministic. -/
def domainRest (s3 : List Char) : Option (List Char) :=
  match dropLit "twitter.com".toList s3 with
  | some s4 => afterDomainRest s4
  | none =>
    match dropLit "x.com".toList s3 with
    | some s4 => afterDomainRest s4
    | none => none

/-- Core of the rewrite pattern, `https?://(www\.)?` followed by
`domainRest`.  Each optional piece is forced: if an `s` is present it
must be taken (otherwise `://` would have to begin with `s`), `www.`
likewise (the domains start with `t`/`x`, never `w`). -/
def matchCoreRest (s : List Char) : Option (List Char) :=
  match dropLit "http".toList s with
  | none => none
  | some s1 =>
    match (match dropLit "s://".toList s1 with
           | some r => some r
           | none => dropLit "://".toList s1) with
    | none => none
    | some s2 =>
      match dropLit "www.".toList s2 with
      | some s3 => domainRest s3
      | none => domainRest s2

/-- Full rewrite pattern including the leading `(<)?`.  If the text at
this position starts with `<`, the optional group must take it (the
fallback would have to match `http` at the `<`). -/
def matchFullRest (s : List Char) : Option (List Char) :=
  match s with
  | '<' :: t => matchCoreRest t
  | _ => matchCoreRest s

/-- The match attempt of the rewrite pattern at the head of `s`:
`some (matched, rest)` when the pattern matches a (necessarily nonempty)
initial segment. -/
def matchModifyAt (s : List Char) : Option (List Char × List Char) :=
  match matchFullRest s with
  | none => none
  | some r => some (s.take (s.length - r.length), r)

/-- Go `strings.TrimPrefix`: drop `p` if it is a prefix, else return `s`
unchanged. -/
def trimIfLit (p s : List Char) : List Char :=
  match dropLit p s with
  | some r => r
  | none => s

/-- `modifySingleLink` from main.go: cut at the first `?` (the
`strings.Index` truncation), strip `http://`, `https://` and `www.` in
that order, then replace a leading `twitter.com` by
`https://fxtwitter.com` or a leading `x.com` by `https://fixupx.com`
(via `strings.HasPrefix` / `strings.TrimPrefix`). -/
def modifySingleLink (link : List Char) : List Char :=
  let l1 := link.takeWhile (· ≠ '?')
  let l2 := trimIfLit "http://".toList l1
  let l3 := trimIfLit "https://".toList l2
  let l4 := trimIfLit "www.".toList l3
  match dropLit "twitter.com".toList l4 with
  | some r => "https://fxtwitter.com".toList ++ r
  | none =>
    match dropLit "x.com".toList l4 with
    | some r => "https://fixupx.com".toList ++ r
    | none => l4

/-- The replacement callback of `modifyTwitterLinks`: a match that both
starts with `<` and ends with `>` is kept verbatim, every other match is
rewritten with `modifySingleLink`. -/
def replaceMatch (m : List Char) : List Char :=
  if ("<".toList.isPrefixOf m && ">".toList.isSuffixOf m) then m
  else modifySingleLink m

/-- The scan loop of `regexp.ReplaceAllStringFunc`: replace each
leftmost non-overlapping match via `replaceMatch`, copy all other
characters unchanged.  The extra `Nat` is structural-recursion fuel; a
match always consumes at least one character, so fuel `s.length` is
enough (`scanGo_congr`). -/
def scanGo : Nat → List Char → List Char
  | _, [] => []
  | 0, s => s
  | Nat.succ n, c :: cs =>
    match matchModifyAt (c :: cs) with
    | some (m, rest) => replaceMatch m ++ scanGo n rest
    | none => c :: scanGo n cs

/-- `modifyTwitterLinks` from main.go: `regexp.ReplaceAllStringFunc`
over the rewrite pattern, with `replaceMatch` as the callback. -/
def modifyTwitterLinks (content : List Char) : List Char :=
  scanGo content.length content

/-- One match attempt of the detection-gate pattern
`https?:\/\/(www\.)?(twitter\.com|x\.com)\/[a-zA-Z0-9_]+\/status\/[0-9]+`
at the head of `s`.  The same determinism arguments as for the rewrite
pattern apply; the handle class here is `[a-zA-Z0-9_]` and there is no
query/tail part. -/
def matchContainsAt (s : List Char) : Bool :=
  match dropLit "http".toList s with
  | none => false
  | some s1 =>
    match (match dropLit "s://".toList s1 with
           | some r => some r
           | none => dropLit "://".toList s1) with
    | none => false
    | some s2 =>
      let s3 := match dropLit "www.".toList s2 with
        | some r => r
        | none => s2
      let s4opt := match dropLit "twitter.com".toList s3 with
        | some r => some r
        | none => dropLit "x.com".toList s3
      match s4opt with
      | none => false
      | some s4 =>
        match s4 with
        | '/' :: s5 =>
          if s5.takeWhile isWordChar = [] then false
          else
            match dropLit "/status/".toList (s5.dropWhile isWordChar) with
            | none => false
            | some s6 => !(s6.takeWhile isDigitChar = [])
        | _ => false

/-- `containsTwitterLink` from main.go: `regexp.MatchString`, i.e. the
pattern matches at some position of the text. -/
def containsTwitterLink (content : List Char) : Bool :=
  content.tails.any matchContainsAt

/-- A message embed as far as the bot reads it: `URL` (empty string when
absent), and the optional `Image`/`Thumbnail` sub-structures carrying
their `URL` fields. -/
structure MessageEmbed where
  URL : List Char
  Image : Option (List Char)
  Thumbnail : Option (List Char)
deriving DecidableEq

/-- A message attachment as far as the bot reads it. -/
structure MessageAttachment where
  URL : List Char
deriving DecidableEq

/-- Modelled from the Go standard library: `url.Parse` followed by
`Hostname()`, restricted to the `scheme://host[:port][/path...]` shape
of every URL this code ever classifies (Twitter CDN and Discord URLs;
userinfo and bracketed IPv6 hosts are not modelled).  A string with no
`://` yields the empty hostname, matching `url.Parse` on a bare path. -/
def hostnameOf (u : List Char) : List Char :=
  match dropLit "://".toList u with
  | some rest => (rest.takeWhile (fun c => c ≠ '/' && c ≠ '?' && c ≠ '#')).takeWhile (· ≠ ':')
  | none =>
    match u with
    | [] => []
    | _ :: cs => hostnameOf cs

/-- Go `strings.HasSuffix` on the hostname of a URL. -/
def hostHasSuffix (u suf : List Char) : Bool :=
  suf.isSuffixOf (hostnameOf u)

/-- The four CDN suffixes of the main.go `isTwitterEmbed`. -/
def twitterCDNs : List (List Char) :=
  ["pbs.twimg.com".toList, "video.twimg.com".toList,
   "abs.twimg.com".toList, "ton.twimg.com".toList]

/-- `isTwitterEmbed` from main.go: the embed URL, image URL or thumbnail
URL (each when present and nonempty) has a hostname ending in one of the
four CDN suffixes. -/
def isTwitterEmbed (e : MessageEmbed) : Bool :=
  (e.URL ≠ [] && twitterCDNs.any (fun cdn => hostHasSuffix e.URL cdn)) ||
  (match e.Image with
   | some u => u ≠ [] && twitterCDNs.any (fun cdn => hostHasSuffix u cdn)
   | none => false) ||
  (match e.Thumbnail with
   | some u => u ≠ [] && twitterCDNs.any (fun cdn => hostHasSuffix u cdn)
   | none => false)

/-- `hasValidTwitterEmbed` from main.go. -/
def hasValidTwitterEmbed (embeds : List MessageEmbed) : Bool :=
  embeds.any isTwitterEmbed

/-- The three CDN suffixes of the part_001/part_002 revisions. -/
def twitterCDNs3 : List (List Char) :=
  ["pbs.twimg.com".toList, "video.twimg.com".toList, "ton.twimg.com".toList]

/-- One URL check of the part_001/part_002 classifiers: `some true` when
a CDN suffix matches (`return true` in Go), `some false` when the
hostname ends in `abs.twimg.com` (`return false` in Go), `none` to fall
through to the next URL. -/
def cdnCheck3 (u : List Char) : Option Bool :=
  if twitterCDNs3.any (fun cdn => hostHasSuffix u cdn) then some true
  else if hostHasSuffix u "abs.twimg.com".toList then some false
  else none

/-- `isWorkingTwitterEmbed` from the part_002 revision: check embed URL,
image URL and thumbnail URL in order; each check can decide the whole
function (`return true` / `return false`) or fall through. -/
def isWorkingTwitterEmbedP2 (e : MessageEmbed) : Bool :=
  match (if e.URL ≠ [] then cdnCheck3 e.URL else none) with
  | some b => b
  | none =>
    match (match e.Image with
           | some u => if u ≠ [] then cdnCheck3 u else none
           | none => none) with
    | some b => b
    | none =>
      match (match e.Thumbnail with
             | some u => if u ≠ [] then cdnCheck3 u else none
             | none => none) with
      | some b => b
      | none => false

/-- Go `strings.Contains`: `pat` occurs as a contiguous substring. -/
def containsSub (pat s : List Char) : Bool :=
  s.tails.any (fun t => pat.isPrefixOf t)

/-- `isWorkingTwitterEmbed` from the part_001 revision: identical to the
part_002 one except that a thumbnail URL containing `tweet_video_thumb`
or `amplify_video_thumb` (`strings.Contains` on the raw URL) forces
`return false` before its suffix test. -/
def isWorkingTwitterEmbedP1 (e : MessageEmbed) : Bool :=
  match (if e.URL ≠ [] then cdnCheck3 e.URL else none) with
  | some b => b
  | none =>
    match (match e.Image with
           | some u => if u ≠ [] then cdnCheck3 u else none
           | none => none) with
    | some b => b
    | none =>
      match (match e.Thumbnail with
             | some u =>
               if u ≠ [] then
                 if containsSub "tweet_video_thumb".toList u
                     || containsSub "amplify_video_thumb".toList u then some false
                 else cdnCheck3 u
               else none
             | none => none) with
      | some b => b
      | none => false

/-- `isWorkingTwitterAttachment` from the part_001/part_002 revisions. -/
def isWorkingTwitterAttachment (a : MessageAttachment) : Bool :=
  match cdnCheck3 a.URL with
  | some b => b
  | none => false

/-- `hasValidTwitterPreview` from the part_002 revision: scan embeds,
then attachments, reporting sufficient on the first working one. -/
def hasValidTwitterPreview (embeds : List MessageEmbed)
    (attachments : List MessageAttachment) : Bool :=
  embeds.any isWorkingTwitterEmbedP2 || attachments.any isWorkingTwitterAttachment

/-- An inbound message event as far as the handlers read it. -/
structure MessageCreate where
  content : List Char
  embeds : List MessageEmbed
  attachments : List MessageAttachment
  fromSelf : Bool
deriving DecidableEq

/-- The pure decision core of `messageCreate` in main.go: the text the
bot sends back, if any.  Messages from the bot itself are ignored;
`hello` is answered with `world!`; otherwise, when the gate fires and no
valid Twitter embed exists and the rewrite changes the text, the
rewritten text is sent. -/
def messageReply (m : MessageCreate) : Option (List Char) :=
  if m.fromSelf then none
  else if m.content = "hello".toList then some "world!".toList
  else if containsTwitterLink m.content then
    if !hasValidTwitterEmbed m.embeds then
      if modifyTwitterLinks m.content ≠ m.content then
        some (modifyTwitterLinks m.content)
      else none
    else none
  else none

/-- The pure decision core of `messageCreate` in the part_002 revision:
same shape, but sufficiency is judged by `hasValidTwitterPreview`
(embeds and attachments). -/
def messageReplyP2 (m : MessageCreate) : Option (List Char) :=
  if m.fromSelf then none
  else if m.content = "hello".toList then some "world!".toList
  else if containsTwitterLink m.content then
    if !hasValidTwitterPreview m.embeds m.attachments then
      if modifyTwitterLinks m.content ≠ m.content then
        some (modifyTwitterLinks m.content)
      else none
    else none
  else none

/-- Protocol part of a status link: `https://` or `http://`. -/
def protoStr (ssl : Bool) : List Char :=
  if ssl then "https://".toList else "http://".toList

/-- Optional `www.` part of a status link. -/
def wwwStr (w : Bool) : List Char :=
  if w then "www.".toList else []

/-- Source domain of a status link: `twitter.com` or `x.com`. -/
def domStr (d : Bool) : List Char :=
  if d then "twitter.com".toList else "x.com".toList

/-- Mirror domain the bot maps each source domain to. -/
def mirrorStr (d : Bool) : List Char :=
  if d then "fxtwitter.com".toList else "fixupx.com".toList

/-- A status link assembled from its parts:
`proto ++ www? ++ domain ++ / ++ handle ++ /status/ ++ id ++ tl`,
where `tl` is whatever text follows the numeric id without an
intervening separator (query string, trailing run, or nothing). -/
def statusLink (ssl w d : Bool) (hdl id tl : List Char) : List Char :=
  protoStr ssl ++ wwwStr w ++ domStr d ++ ['/'] ++ hdl ++ "/status/".toList ++ id ++ tl

theorem dropLit_eq {p s r : List Char} (h : dropLit p s = some r) : s = p ++ r := by
  induction p generalizing s with
  | nil => simpa [dropLit] using h
  | cons a as ih =>
    cases s with
    | nil => simp [dropLit] at h
    | cons b bs =>
      by_cases hab : a = b
      · subst hab
        simp only [dropLit, if_pos rfl] at h
        simpa using ih h
      · simp [dropLit, hab] at h

theorem dropLit_self_append (p r : List Char) : dropLit p (p ++ r) = some r := by
  induction p with
  | nil => simp [dropLit]
  | cons a as ih => simp [dropLit, ih]

theorem dropLit_suffix {p s r : List Char} (h : dropLit p s = some r) : r <:+ s := by
  rw [dropLit_eq h]; exact List.suffix_append p r

theorem dropQueryGroup_suffix (s : List Char) : dropQueryGroup s <:+ s := by
  unfold dropQueryGroup
  split
  · exact (List.dropWhile_suffix _).trans (List.suffix_cons _ _)
  · exact List.suffix_refl s

theorem dropGtOpt_suffix (s : List Char) : dropGtOpt s <:+ s := by
  unfold dropGtOpt
  split
  · exact List.suffix_cons _ _
  · exact List.suffix_refl s

theorem matchTailRest_suffix (s : List Char) : matchTailRest s <:+ s :=
  (dropGtOpt_suffix _).trans ((List.dropWhile_suffix _).trans (dropQueryGroup_suffix s))

theorem afterDomainRest_suffix {s r : List Char} (h : afterDomainRest s = some r) :
    r <:+ s := by
  unfold afterDomainRest at h
  split at h
  next s5 =>
    split at h
    · exact absurd h (by simp)
    · split at h
      · exact absurd h (by simp)
      next s6 h6 =>
        split at h
        · exact absurd h (by simp)
        · have hr : r = matchTailRest (s6.dropWhile isDigitChar) := by
            simpa using h.symm
          subst hr
          have h1 : matchTailRest (s6.dropWhile isDigitChar) <:+ s6 :=
            (matchTailRest_suffix _).trans (List.dropWhile_suffix _)
          have h2 : s6 <:+ s5.dropWhile (· ≠ '/') := dropLit_suffix h6
          exact ((h1.trans h2).trans (List.dropWhile_suffix _)).trans (List.suffix_cons _ _)
  · exact absurd h (by simp)

theorem domainRest_suffix {s r : List Char} (h : domainRest s = some r) :
    r <:+ s := by
  unfold domainRest at h
  split at h
  next s4 h4 => exact (afterDomainRest_suffix h).trans (dropLit_suffix h4)
  next =>
    split at h
    next s4 h4 => exact (afterDomainRest_suffix h).trans (dropLit_suffix h4)
    next => exact absurd h (by simp)

theorem matchCoreRest_suffix {s r : List Char} (h : matchCoreRest s = some r) :
    r <:+ s ∧ r.length < s.length := by
  unfold matchCoreRest at h
  split at h
  · exact absurd h (by simp)
  next s1 h1 =>
    split at h
    · exact absurd h (by simp)
    next s2 h2 =>
      have hs2 : s2 <:+ s1 := by
        split at h2
        next r' h' =>
          have : r' = s2 := by simpa using h2
          exact this ▸ dropLit_suffix h'
        next h' => exact dropLit_suffix h2
      have hr : r <:+ s2 := by
        split at h
        next s3 h3 => exact (domainRest_suffix h).trans (dropLit_suffix h3)
        next => exact domainRest_suffix h
      have hsuf : r <:+ s := (hr.trans hs2).trans (dropLit_suffix h1)
      refine ⟨hsuf, ?_⟩
      have hlen1 : s = "http".toList ++ s1 := dropLit_eq h1
      have h4 : ("http".toList).length = 4 := rfl
      have : r.length ≤ s1.length := (hr.trans hs2).length_le
      have : s.length = 4 + s1.length := by rw [hlen1, List.length_append, h4]
      omega

theorem matchFullRest_suffix {s r : List Char} (h : matchFullRest s = some r) :
    r <:+ s ∧ r.length < s.length := by
  unfold matchFullRest at h
  split at h
  next t =>
    obtain ⟨h1, h2⟩ := matchCoreRest_suffix h
    exact ⟨h1.trans (List.suffix_cons _ _), by simpa using Nat.lt_succ_of_lt h2⟩
  next =>
    exact matchCoreRest_suffix h

theorem matchModifyAt_eq_append {s m r : List Char}
    (h : matchModifyAt s = some (m, r)) : s = m ++ r ∧ r.length < s.length := by
  unfold matchModifyAt at h
  split at h
  · exact absurd h (by simp)
  next r0 h0 =>
    simp only [Option.some.injEq, Prod.mk.injEq] at h
    obtain ⟨hm, hr⟩ := h
    obtain ⟨⟨t, ht⟩, hlen⟩ := matchFullRest_suffix h0
    have htl : s.length - r0.length = t.length := by
      rw [← ht, List.length_append]; omega
    refine ⟨?_, hr ▸ hlen⟩
    rw [← hm, ← hr, htl, ← ht, List.take_left]

theorem scanGo_congr : ∀ {n m : Nat} {s : List Char},
    s.length ≤ n → s.length ≤ m → scanGo n s = scanGo m s := by
  intro n
  induction n with
  | zero =>
    intro m s hn _
    have : s = [] := List.length_eq_zero.mp (Nat.le_zero.mp hn)
    subst this
    cases m <;> rfl
  | succ n ih =>
    intro m s hn hm
    cases s with
    | nil => cases m <;> rfl
    | cons c cs =>
      cases m with
      | zero => exact absurd hm (by simp)
      | succ m' =>
        simp only [scanGo]
        cases hmm : matchModifyAt (c :: cs) with
        | some p =>
          obtain ⟨mm, rest⟩ := p
          have hlt := (matchModifyAt_eq_append hmm).2
          simp only [List.length_cons] at hlt hn hm
          have h1 : rest.length ≤ n := by omega
          have h2 : rest.length ≤ m' := by omega
          dsimp only
          rw [ih h1 h2]
        | none =>
          simp only [List.length_cons] at hn hm
          dsimp only
          rw [ih (show cs.length ≤ n by omega) (show cs.length ≤ m' by omega)]

theorem modifyTwitterLinks_of_match {s m r : List Char}
    (h : matchModifyAt s = some (m, r)) :
    modifyTwitterLinks s = replaceMatch m ++ modifyTwitterLinks r := by
  have hlt := (matchModifyAt_eq_append h).2
  cases s with
  | nil => simp at hlt
  | cons c cs =>
    show scanGo (c :: cs).length (c :: cs) = _
    simp only [List.length_cons, scanGo, h]
    simp only [List.length_cons] at hlt
    rw [scanGo_congr (by omega) (Nat.le_refl r.length)]
    rfl

theorem modifyTwitterLinks_of_none {c : Char} {cs : List Char}
    (h : matchModifyAt (c :: cs) = none) :
    modifyTwitterLinks (c :: cs) = c :: modifyTwitterLinks cs := by
  show scanGo (c :: cs).length (c :: cs) = _
  simp only [List.length_cons, scanGo, h]
  rfl

theorem takeWhile_append_all {p : Char → Bool} {a : List Char} (b : List Char)
    (h : ∀ c ∈ a, p c = true) :
    (a ++ b).takeWhile p = a ++ b.takeWhile p := by
  induction a with
  | nil => simp
  | cons x xs ih =>
    have hx : p x = true := h x (by simp)
    simp only [List.cons_append, List.takeWhile_cons, hx, if_true]
    rw [ih (fun c hc => h c (by simp [hc]))]

theorem dropWhile_append_all {p : Char → Bool} {a : List Char} (b : List Char)
    (h : ∀ c ∈ a, p c = true) :
    (a ++ b).dropWhile p = b.dropWhile p := by
  induction a with
  | nil => simp
  | cons x xs ih =>
    have hx : p x = true := h x (by simp)
    simp only [List.cons_append, List.dropWhile_cons, hx, if_true]
    exact ih (fun c hc => h c (by simp [hc]))

/-- If the rewrite pattern matches at no position of `s`, the scan copies
`s` unchanged (the `ReplaceAllStringFunc` identity case). -/
theorem modifyTwitterLinks_id_of_no_match {s : List Char}
    (h : ∀ i ≤ s.length, matchModifyAt (s.drop i) = none) :
    modifyTwitterLinks s = s := by
  induction s with
  | nil => rfl
  | cons c cs ih =>
    have h0 : matchModifyAt (c :: cs) = none := by
      have := h 0 (by simp)
      simpa using this
    rw [modifyTwitterLinks_of_none h0]
    rw [ih (fun i hi => by
      have := h (i + 1) (by simpa using Nat.succ_le_succ hi)
      simpa using this)]

/-- The scan walks through a match-free region `pre` unchanged and
continues on the rest. -/
theorem modifyTwitterLinks_append_of_no_match {pre rest : List Char}
    (h : ∀ i < pre.length, matchModifyAt ((pre ++ rest).drop i) = none) :
    modifyTwitterLinks (pre ++ rest) = pre ++ modifyTwitterLinks rest := by
  induction pre with
  | nil => simp
  | cons c cs ih =>
    have h0 : matchModifyAt (c :: (cs ++ rest)) = none := by
      have := h 0 (by simp)
      simpa using this
    rw [List.cons_append, modifyTwitterLinks_of_none h0]
    rw [ih (fun i hi => by
      have := h (i + 1) (by simpa using Nat.succ_lt_succ hi)
      simpa using this)]
    simp

theorem statusLink_tail_append (ssl w d : Bool) (hdl id tl : List Char) :
    statusLink ssl w d hdl id tl = statusLink ssl w d hdl id [] ++ tl := by
  simp [statusLink, List.append_assoc]

theorem mem_all_true {p : Char → Bool} {l : List Char} (hl : l.all p = true)
    {c : Char} (hc : c ∈ l) : p c = true :=
  List.all_eq_true.mp hl c hc

theorem isDigitChar_ne_qmark {c : Char} (h : isDigitChar c = true) : c ≠ '?' := by
  intro hc
  subst hc
  exact absurd h (by decide)

/-- What `modifySingleLink` does to a structured status link whose handle
is free of `?`: the query cut keeps everything up to the first `?` of
`tl`, the protocol and `www.` are stripped, and the domain is replaced by
its mirror under a fresh `https://`. -/
theorem modifySingleLink_statusLink (ssl w d : Bool) {hdl id : List Char} (tl : List Char)
    (hh : ∀ c ∈ hdl, c ≠ '?') (hdig : ∀ c ∈ id, isDigitChar c = true) :
    modifySingleLink (statusLink ssl w d hdl id tl)
      = "https://".toList ++ mirrorStr d ++ ['/'] ++ hdl ++ "/status/".toList ++ id
          ++ tl.takeWhile (· ≠ '?') := by
  have hq : ((protoStr ssl ++ wwwStr w ++ domStr d ++ ['/'] ++ hdl
      ++ "/status/".toList ++ id).all (fun c => decide (c ≠ '?'))) = true := by
    simp only [List.all_append, Bool.and_eq_true]
    refine ⟨⟨⟨⟨⟨⟨?_, ?_⟩, ?_⟩, ?_⟩, ?_⟩, ?_⟩, ?_⟩
    · cases ssl <;> decide
    · cases w <;> decide
    · cases d <;> decide
    · decide
    · rw [List.all_eq_true]
      intro c hc
      simpa using hh c hc
    · decide
    · rw [List.all_eq_true]
      intro c hc
      simpa using isDigitChar_ne_qmark (hdig c hc)
  simp only [modifySingleLink, statusLink]
  rw [takeWhile_append_all tl (List.all_eq_true.mp hq)]
  cases ssl <;> cases w <;> cases d <;>
    simp [trimIfLit, dropLit, protoStr, wwwStr, domStr, mirrorStr, List.append_assoc]

theorem dropQueryGroup_cons_ne {c : Char} (t : List Char) (h : c ≠ '?') :
    dropQueryGroup (c :: t) = c :: t := by
  unfold dropQueryGroup
  split
  next t' heq =>
    injection heq with h1 _
    exact absurd h1 h
  next => rfl

theorem dropGtOpt_cons_ne {c : Char} (t : List Char) (h : c ≠ '>') :
    dropGtOpt (c :: t) = c :: t := by
  unfold dropGtOpt
  split
  next t' heq =>
    injection heq with h1 _
    exact absurd h1 h
  next => rfl

theorem stop_ne_qmark {c : Char} (h : isSpaceChar c = true ∨ c = '<') : c ≠ '?' := by
  rcases h with h | h
  · simp [isSpaceChar] at h
    rcases h with ((((h | h) | h) | h) | h) <;> subst h <;> decide
  · subst h; decide

theorem stop_ne_gt {c : Char} (h : isSpaceChar c = true ∨ c = '<') : c ≠ '>' := by
  rcases h with h | h
  · simp [isSpaceChar] at h
    rcases h with ((((h | h) | h) | h) | h) <;> subst h <;> decide
  · subst h; decide

theorem stop_pred_false {c : Char} (h : isSpaceChar c = true ∨ c = '<') :
    (!isSpaceChar c && decide (c ≠ '<')) = false := by
  rcases h with h | h
  · simp [h]
  · subst h; decide

theorem not_digit_of_stop {c : Char} (h : isSpaceChar c = true ∨ c = '<') :
    isDigitChar c = false := by
  rcases h with h | h
  · simp [isSpaceChar] at h
    rcases h with ((((h | h) | h) | h) | h) <;> subst h <;> decide
  · subst h; decide

/-- A separator (whitespace, `<`, or end of text) right after the digits
stops the tail groups of the rewrite pattern: nothing more is consumed. -/
theorem matchTailRest_stop {post : List Char}
    (hpost : post = [] ∨ ∃ c t, post = c :: t ∧ (isSpaceChar c = true ∨ c = '<')) :
    matchTailRest post = post := by
  rcases hpost with rfl | ⟨c, t, rfl, hc⟩
  · rfl
  · unfold matchTailRest
    rw [dropQueryGroup_cons_ne _ (stop_ne_qmark hc)]
    rw [List.dropWhile_cons, stop_pred_false hc]
    simp only [Bool.false_eq_true, if_false]
    exact dropGtOpt_cons_ne _ (stop_ne_gt hc)

/-- A closing `>` right after the digits is consumed by the `([^<\s]*)`
group when a separator (or end of text) follows it. -/
theorem matchTailRest_gt {post : List Char}
    (hpost : post = [] ∨ ∃ c t, post = c :: t ∧ (isSpaceChar c = true ∨ c = '<')) :
    matchTailRest ('>' :: post) = post := by
  unfold matchTailRest
  rw [dropQueryGroup_cons_ne _ (by decide)]
  rw [List.dropWhile_cons]
  have hgt : (!isSpaceChar '>' && decide ('>' ≠ '<')) = true := by decide
  rw [hgt]
  simp only [if_true]
  rcases hpost with rfl | ⟨c, t, rfl, hc⟩
  · rfl
  · rw [List.dropWhile_cons, stop_pred_false hc]
    simp only [Bool.false_eq_true, if_false]
    exact dropGtOpt_cons_ne _ (stop_ne_gt hc)

/-- Walking the concrete scheme/www/domain fragments of the rewrite
pattern over a structured link prefix. -/
theorem matchCoreRest_scheme (ssl w d : Bool) (Y : List Char) :
    matchCoreRest (protoStr ssl ++ (wwwStr w ++ (domStr d ++ Y)))
      = afterDomainRest Y := by
  cases ssl <;> cases w <;> cases d <;>
    simp [matchCoreRest, domainRest, dropLit, protoStr, wwwStr, domStr]

/-- The handle/status/id fragment of the rewrite pattern on a structured
link: it consumes everything up to the end of the numeric id and leaves
`matchTailRest tl2`. -/
theorem afterDomainRest_statusLink {hdl id tl2 : List Char}
    (hh : hdl ≠ []) (hslash : ∀ c ∈ hdl, c ≠ '/')
    (hid : id ≠ []) (hdig : ∀ c ∈ id, isDigitChar c = true)
    (hnd : ∀ c t, tl2 = c :: t → isDigitChar c = false) :
    afterDomainRest ('/' :: (hdl ++ ("/status/".toList ++ (id ++ tl2))))
      = some (matchTailRest tl2) := by
  have hA : (hdl ++ ("/status/".toList ++ (id ++ tl2))).takeWhile
      (fun c => decide (c ≠ '/')) = hdl := by
    rw [takeWhile_append_all _ (fun c hc => by simpa using hslash c hc)]
    simp [List.takeWhile]
  have hB : (hdl ++ ("/status/".toList ++ (id ++ tl2))).dropWhile
      (fun c => decide (c ≠ '/')) = "/status/".toList ++ (id ++ tl2) := by
    rw [dropWhile_append_all _ (fun c hc => by simpa using hslash c hc)]
    simp [List.dropWhile]
  have hC : (id ++ tl2).takeWhile isDigitChar = id := by
    rw [takeWhile_append_all _ hdig]
    cases htl : tl2 with
    | nil => simp
    | cons c t =>
      rw [List.takeWhile_cons, hnd c t htl]
      simp
  have hD : (id ++ tl2).dropWhile isDigitChar = tl2 := by
    rw [dropWhile_append_all _ hdig]
    cases htl : tl2 with
    | nil => simp
    | cons c t =>
      rw [List.dropWhile_cons, hnd c t htl]
      simp
  unfold afterDomainRest
  split
  next s5 heq =>
    injection heq with h1 h2
    subst h2
    rw [hA, hB]
    simp only [hh, if_false]
    rw [dropLit_self_append]
    dsimp only
    rw [hC, hD]
    simp [hid]
  next hne =>
    exact absurd rfl (hne (hdl ++ ("/status/".toList ++ (id ++ tl2))))

/-- The full rewrite-pattern core on a structured status link. -/
theorem matchCoreRest_statusLink (ssl w d : Bool) {hdl id tl2 : List Char}
    (hh : hdl ≠ []) (hslash : ∀ c ∈ hdl, c ≠ '/')
    (hid : id ≠ []) (hdig : ∀ c ∈ id, isDigitChar c = true)
    (hnd : ∀ c t, tl2 = c :: t → isDigitChar c = false) :
    matchCoreRest (statusLink ssl w d hdl id tl2) = some (matchTailRest tl2) := by
  have harg : statusLink ssl w d hdl id tl2
      = protoStr ssl ++ (wwwStr w ++ (domStr d
          ++ ('/' :: (hdl ++ ("/status/".toList ++ (id ++ tl2)))))) := by
    simp [statusLink, List.append_assoc]
  rw [harg, matchCoreRest_scheme,
    afterDomainRest_statusLink hh hslash hid hdig hnd]

/-- A structured status link starts with `http`, never `<`, so the
optional leading bracket group is skipped. -/
theorem matchFullRest_statusLink (ssl w d : Bool) (hdl id tl2 : List Char) :
    matchFullRest (statusLink ssl w d hdl id tl2)
      = matchCoreRest (statusLink ssl w d hdl id tl2) := by
  cases ssl <;> simp [matchFullRest, statusLink, protoStr, List.append_assoc]

theorem matchFullRest_lt (X : List Char) :
    matchFullRest ('<' :: X) = matchCoreRest X := by
  simp [matchFullRest]

/-- The rewrite pattern matches a bare structured status link exactly,
when a separator (whitespace, `<`, or end of text) follows the id. -/
theorem matchModifyAt_statusLink (ssl w d : Bool) {hdl id post : List Char}
    (hh : hdl ≠ []) (hslash : ∀ c ∈ hdl, c ≠ '/')
    (hid : id ≠ []) (hdig : ∀ c ∈ id, isDigitChar c = true)
    (hpost : post = [] ∨ ∃ c t, post = c :: t ∧ (isSpaceChar c = true ∨ c = '<')) :
    matchModifyAt (statusLink ssl w d hdl id [] ++ post)
      = some (statusLink ssl w d hdl id [], post) := by
  have hnd : ∀ c t, post = c :: t → isDigitChar c = false := by
    intro c t hct
    rcases hpost with h | ⟨c', t', hct', hc'⟩
    · rw [h] at hct; exact absurd hct (by simp)
    · rw [hct'] at hct
      injection hct with h1 _
      rw [← h1]
      exact not_digit_of_stop hc'
  have h1 : matchFullRest (statusLink ssl w d hdl id [] ++ post) = some post := by
    rw [← statusLink_tail_append, matchFullRest_statusLink,
      matchCoreRest_statusLink ssl w d hh hslash hid hdig hnd,
      matchTailRest_stop hpost]
  unfold matchModifyAt
  rw [h1]
  dsimp only
  have hlen : (statusLink ssl w d hdl id [] ++ post).length - post.length
      = (statusLink ssl w d hdl id []).length := by
    rw [List.length_append]
    omega
  rw [hlen, List.take_left]

/-- The rewrite pattern matches an angle-bracket-wrapped structured
status link exactly (brackets included), when a separator follows the
closing bracket. -/
theorem matchModifyAt_wrapped (ssl w d : Bool) {hdl id post : List Char}
    (hh : hdl ≠ []) (hslash : ∀ c ∈ hdl, c ≠ '/')
    (hid : id ≠ []) (hdig : ∀ c ∈ id, isDigitChar c = true)
    (hpost : post = [] ∨ ∃ c t, post = c :: t ∧ (isSpaceChar c = true ∨ c = '<')) :
    matchModifyAt (('<' :: (statusLink ssl w d hdl id [] ++ ['>'])) ++ post)
      = some ('<' :: (statusLink ssl w d hdl id [] ++ ['>']), post) := by
  have hnd : ∀ c t, ('>' :: post) = c :: t → isDigitChar c = false := by
    intro c t hct
    injection hct with h1 _
    rw [← h1]
    decide
  have h1 : matchFullRest (('<' :: (statusLink ssl w d hdl id [] ++ ['>'])) ++ post)
      = some post := by
    rw [List.cons_append, matchFullRest_lt]
    have : statusLink ssl w d hdl id [] ++ ['>'] ++ post
        = statusLink ssl w d hdl id ('>' :: post) := by
      rw [statusLink_tail_append ssl w d hdl id ('>' :: post)]
      simp
    rw [this, matchCoreRest_statusLink ssl w d hh hslash hid hdig hnd,
      matchTailRest_gt hpost]
  unfold matchModifyAt
  rw [h1]
  dsimp only
  have hlen : (('<' :: (statusLink ssl w d hdl id [] ++ ['>'])) ++ post).length
      - post.length = ('<' :: (statusLink ssl w d hdl id [] ++ ['>'])).length := by
    rw [List.length_append]
    omega
  rw [hlen, List.take_left]

/-- A bare structured link starts with `http`, not `<`, so the callback
rewrites it. -/
theorem replaceMatch_statusLink (ssl w d : Bool) (hdl id tl2 : List Char) :
    replaceMatch (statusLink ssl w d hdl id tl2)
      = modifySingleLink (statusLink ssl w d hdl id tl2) := by
  unfold replaceMatch
  have h1 : ("<".toList.isPrefixOf (statusLink ssl w d hdl id tl2)) = false := by
    cases ssl <;> simp [statusLink, protoStr, List.isPrefixOf, List.append_assoc]
  rw [h1]
  simp

/-- A match that is exactly an angle-bracket-wrapped span is kept
verbatim by the callback. -/
theorem replaceMatch_wrapped (X : List Char) :
    replaceMatch ('<' :: (X ++ ['>'])) = '<' :: (X ++ ['>']) := by
  unfold replaceMatch
  have h1 : ("<".toList.isPrefixOf ('<' :: (X ++ ['>']))) = true := by
    simp [List.isPrefixOf]
  have h2 : (">".toList.isSuffixOf ('<' :: (X ++ ['>']))) = true := by
    rw [List.isSuffixOf_iff_suffix]
    exact ⟨'<' :: X, by simp⟩
  rw [h1, h2]
  simp

/-- A hostname ending in `abs.twimg.com` ends in none of the three
working-CDN suffixes: equal-length suffixes of the same list coincide,
and `abs.twimg.com` is not a suffix of `video.twimg.com`. -/
theorem cdnCheck3_abs {u : List Char}
    (h : hostHasSuffix u "abs.twimg.com".toList = true) :
    cdnCheck3 u = some false := by
  have habs : "abs.twimg.com".toList <:+ hostnameOf u := by
    simpa [hostHasSuffix] using h
  have hany : twitterCDNs3.any (fun cdn => hostHasSuffix u cdn) = false := by
    simp only [twitterCDNs3, List.any_cons, List.any_nil, Bool.or_eq_false_iff]
    refine ⟨?_, ?_, ?_, trivial⟩
    · rw [Bool.eq_false_iff]
      intro hx
      have hx' : "pbs.twimg.com".toList <:+ hostnameOf u := by
        simpa [hostHasSuffix] using hx
      have : "pbs.twimg.com".toList <:+ "abs.twimg.com".toList :=
        List.suffix_of_suffix_length_le hx' habs (by decide)
      exact absurd this (by decide)
    · rw [Bool.eq_false_iff]
      intro hx
      have hx' : "video.twimg.com".toList <:+ hostnameOf u := by
        simpa [hostHasSuffix] using hx
      have : "abs.twimg.com".toList <:+ "video.twimg.com".toList :=
        List.suffix_of_suffix_length_le habs hx' (by decide)
      exact absurd this (by decide)
    · rw [Bool.eq_false_iff]
      intro hx
      have hx' : "ton.twimg.com".toList <:+ hostnameOf u := by
        simpa [hostHasSuffix] using hx
      have : "ton.twimg.com".toList <:+ "abs.twimg.com".toList :=
        List.suffix_of_suffix_length_le hx' habs (by decide)
      exact absurd this (by decide)
  unfold cdnCheck3
  rw [hany, h]
  simp

/-- Claim C7 (confirmed): for every input text in which the rewrite
pattern matches at no position — no qualifying status link — the
rewriter returns the input unchanged, byte for byte. -/
theorem C7_identity_on_link_free_text {s : List Char}
    (h : ∀ i ≤ s.length, matchModifyAt (s.drop i) = none) :
    modifyTwitterLinks s = s :=
  modifyTwitterLinks_id_of_no_match h

/-- Witness for C7 at the link-free test fixture of the repository. -/
theorem C7_identity_on_link_free_text_witness :
    modifyTwitterLinks "Just a regular message".toList
      = "Just a regular message".toList :=
  C7_identity_on_link_free_text (by decide)

/-- Claim C8, counterexample: a text with no angle brackets on which the
rewriter is not idempotent.  Two adjacent status links: the trailing
`([^<\s]*)` group of the first match swallows the second link, so the first pass
leaves it on x.com and the second pass rewrites it further. -/
theorem C8_counterexample :
    (∀ c ∈ "https://twitter.com/c/status/3https://x.com/d/status/4".toList,
        c ≠ '<' ∧ c ≠ '>') ∧
    modifyTwitterLinks (modifyTwitterLinks
        "https://twitter.com/c/status/3https://x.com/d/status/4".toList)
      ≠ modifyTwitterLinks
          "https://twitter.com/c/status/3https://x.com/d/status/4".toList :=
  ⟨by decide, by decide⟩

/-- Claim C8 (amended): the rewrite is idempotent on every input whose
first rewrite output contains no further match of the rewrite pattern —
the unconditional claim fails exactly because one pass can leave a
matchable link inside the swallowed tail of a rewritten link. -/
theorem C8_idempotent_on_matchfree_output (t : List Char)
    (h : ∀ i ≤ (modifyTwitterLinks t).length,
        matchModifyAt ((modifyTwitterLinks t).drop i) = none) :
    modifyTwitterLinks (modifyTwitterLinks t) = modifyTwitterLinks t :=
  modifyTwitterLinks_id_of_no_match h

/-- Witness for the amended C8 on an ordinary separated link. -/
theorem C8_idempotent_on_matchfree_output_witness :
    modifyTwitterLinks (modifyTwitterLinks
        "go https://twitter.com/user/status/99 now".toList)
      = modifyTwitterLinks "go https://twitter.com/user/status/99 now".toList :=
  C8_idempotent_on_matchfree_output _ (by decide)

/-- Claim C9 (confirmed): when the detection gate fails, the main.go
handler sends nothing, and the gate is strictly stricter than the
rewriter: a handle with a character outside `[a-zA-Z0-9_]` (here `.`)
fails the gate although the rewriter would rewrite the link. -/
theorem C9_gate_stricter_than_rewriter :
    (∀ m : MessageCreate, m.fromSelf = false → m.content ≠ "hello".toList →
        containsTwitterLink m.content = false → messageReply m = none) ∧
    containsTwitterLink "https://twitter.com/us.er/status/123".toList = false ∧
    modifyTwitterLinks "https://twitter.com/us.er/status/123".toList
      = "https://fxtwitter.com/us.er/status/123".toList ∧
    modifyTwitterLinks "https://twitter.com/us.er/status/123".toList
      ≠ "https://twitter.com/us.er/status/123".toList := by
  refine ⟨?_, by decide, by decide, by decide⟩
  intro m h1 h2 h3
  replace h2 : m.content ≠ ['h', 'e', 'l', 'l', 'o'] := by simpa using h2
  unfold messageReply
  simp [h1, h2, h3]

/-- Witness for C9: the dotted-handle message gets no reply. -/
theorem C9_gate_stricter_than_rewriter_witness :
    messageReply ⟨"https://twitter.com/us.er/status/123".toList, [], [], false⟩
      = none :=
  C9_gate_stricter_than_rewriter.1 _ rfl (by decide) (by decide)

/-- Claim C10 (confirmed): a `hello` message from another user is
answered with exactly `world!`, whatever embeds and attachments it
carries — no link detection, preview classification or rewriting is
involved. -/
theorem C10_hello_world (embeds : List MessageEmbed)
    (atts : List MessageAttachment) :
    messageReply ⟨"hello".toList, embeds, atts, false⟩
      = some "world!".toList := by
  unfold messageReply
  simp

/-- Witness for C10 on the empty message surroundings. -/
theorem C10_hello_world_witness :
    messageReply ⟨"hello".toList, [], [], false⟩ = some "world!".toList :=
  C10_hello_world [] []

/-- Claim C1, counterexample: the second of two adjacent status links is
non-escaped and of the required form, yet it is not mapped to its mirror
domain — the trailing `([^<\s]*)` group of the first match swallows it and
`modifySingleLink` only rewrites the leading domain. -/
theorem C1_counterexample :
    modifyTwitterLinks "https://twitter.com/a/status/1https://x.com/b/status/2".toList
      = "https://fxtwitter.com/a/status/1https://x.com/b/status/2".toList ∧
    modifyTwitterLinks "https://twitter.com/a/status/1https://x.com/b/status/2".toList
      ≠ "https://fxtwitter.com/a/status/1https://fixupx.com/b/status/2".toList :=
  ⟨by decide, by decide⟩

/-- Claim C1 (amended): every status link that the pattern matches
exactly — clean `domain/handle/status/digits` shape, handle without `/`
or `?`, nothing before it that matches, and a separator (whitespace,
`<`, or end of text) right after the id — is replaced by the
corresponding mirror link, protocol normalized to `https://`, `www.`
dropped, handle and id preserved, and the rest of the text processed
independently. -/
theorem C1_rewrite_of_matched_link (ssl w d : Bool) (pre hdl id post : List Char)
    (hpre : ∀ i < pre.length,
      matchModifyAt ((pre ++ (statusLink ssl w d hdl id [] ++ post)).drop i) = none)
    (hh : hdl ≠ []) (hslash : ∀ c ∈ hdl, c ≠ '/') (hq : ∀ c ∈ hdl, c ≠ '?')
    (hid : id ≠ []) (hdig : ∀ c ∈ id, isDigitChar c = true)
    (hpost : post = [] ∨ ∃ c t, post = c :: t ∧ (isSpaceChar c = true ∨ c = '<')) :
    modifyTwitterLinks (pre ++ (statusLink ssl w d hdl id [] ++ post))
      = pre ++ (("https://".toList ++ mirrorStr d ++ ['/'] ++ hdl
          ++ "/status/".toList ++ id) ++ modifyTwitterLinks post) := by
  rw [modifyTwitterLinks_append_of_no_match hpre]
  rw [modifyTwitterLinks_of_match
    (matchModifyAt_statusLink ssl w d hh hslash hid hdig hpost)]
  rw [replaceMatch_statusLink, modifySingleLink_statusLink ssl w d [] hq hdig]
  simp

/-- Witness for the amended C1: an `http`+`www.` link in running text is
rewritten to the canonical mirror form. -/
theorem C1_rewrite_of_matched_link_witness :
    modifyTwitterLinks "see https://www.twitter.com/user/status/42 ok".toList
      = "see https://fxtwitter.com/user/status/42 ok".toList := by
  have h0 : "see https://www.twitter.com/user/status/42 ok".toList
      = "see ".toList ++ (statusLink true true true "user".toList "42".toList []
          ++ " ok".toList) := by decide
  rw [h0, C1_rewrite_of_matched_link true true true "see ".toList "user".toList
    "42".toList " ok".toList (by decide) (by decide) (by decide) (by decide)
    (by decide) (by decide)
    (Or.inr ⟨' ', "ok".toList, by decide, Or.inl (by decide)⟩)]
  decide

/-- Claim C2 (confirmed): a qualifying status link wrapped in a leading
`<` and trailing `>` (the whole match bounded by the brackets) is left
completely untouched, brackets included, while the rest of the text is
still processed (other links there are rewritten). -/
theorem C2_escaped_span_unchanged (ssl w d : Bool) (pre hdl id post : List Char)
    (hpre : ∀ i < pre.length,
      matchModifyAt ((pre ++ (('<' :: (statusLink ssl w d hdl id [] ++ ['>']))
        ++ post)).drop i) = none)
    (hh : hdl ≠ []) (hslash : ∀ c ∈ hdl, c ≠ '/')
    (hid : id ≠ []) (hdig : ∀ c ∈ id, isDigitChar c = true)
    (hpost : post = [] ∨ ∃ c t, post = c :: t ∧ (isSpaceChar c = true ∨ c = '<')) :
    modifyTwitterLinks (pre ++ (('<' :: (statusLink ssl w d hdl id [] ++ ['>']))
        ++ post))
      = pre ++ (('<' :: (statusLink ssl w d hdl id [] ++ ['>']))
          ++ modifyTwitterLinks post) := by
  rw [modifyTwitterLinks_append_of_no_match hpre]
  rw [modifyTwitterLinks_of_match
    (matchModifyAt_wrapped ssl w d hh hslash hid hdig hpost)]
  rw [replaceMatch_wrapped]

/-- Witness for C2: the escaped span survives while a later link in the
same message is rewritten. -/
theorem C2_escaped_span_unchanged_witness :
    modifyTwitterLinks
        "keep <https://twitter.com/user/status/123456> and https://x.com/u2/status/456".toList
      = "keep <https://twitter.com/user/status/123456> and https://fixupx.com/u2/status/456".toList := by
  have h0 : "keep <https://twitter.com/user/status/123456> and https://x.com/u2/status/456".toList
      = "keep ".toList ++ (('<' :: (statusLink true false true "user".toList
          "123456".toList [] ++ ['>']))
          ++ " and https://x.com/u2/status/456".toList) := by decide
  rw [h0, C2_escaped_span_unchanged true false true "keep ".toList "user".toList
    "123456".toList " and https://x.com/u2/status/456".toList (by decide)
    (by decide) (by decide) (by decide) (by decide)
    (Or.inr ⟨' ', "and https://x.com/u2/status/456".toList, by decide,
      Or.inl (by decide)⟩)]
  decide

theorem ne_qmark_of_mem_lit {l : List Char}
    (hl : l.all (fun x => decide (x ≠ '?')) = true) {c : Char} (hc : c ∈ l) :
    c ≠ '?' := by
  simpa using mem_all_true hl hc

/-- Claim C3, counterexample: a rewritten link can carry characters
after the numeric id — text adjacent to the id (no separator) is part of
the trailing group of the match and is kept by `modifySingleLink`. -/
theorem C3_counterexample :
    modifyTwitterLinks "see https://twitter.com/ab/status/7abc now".toList
      = "see https://fxtwitter.com/ab/status/7abc now".toList ∧
    modifyTwitterLinks "see https://twitter.com/ab/status/7abc now".toList
      ≠ "see https://fxtwitter.com/ab/status/7 now".toList :=
  ⟨by decide, by decide⟩

/-- Claim C3 (amended): every rewritten link starts with
`https://<mirror-domain>/<handle>/status/<id>` and contains no `?`
(everything from the first `?` of the tail onward is discarded); the
characters after the id are exactly the tail of the match up to its
first `?` — empty whenever the match ends at the id or a query string
follows it, but nonempty for adjacent trailing text. -/
theorem C3_rewritten_link_canonical_form (ssl w d : Bool) (hdl id tl : List Char)
    (hq : ∀ c ∈ hdl, c ≠ '?') (hdig : ∀ c ∈ id, isDigitChar c = true) :
    modifySingleLink (statusLink ssl w d hdl id tl)
      = "https://".toList ++ mirrorStr d ++ ['/'] ++ hdl ++ "/status/".toList
          ++ id ++ tl.takeWhile (· ≠ '?') ∧
    (∀ c ∈ modifySingleLink (statusLink ssl w d hdl id tl), c ≠ '?') := by
  have heq := modifySingleLink_statusLink ssl w d tl hq hdig
  refine ⟨heq, ?_⟩
  rw [heq]
  intro c hc
  simp only [List.mem_append] at hc
  rcases hc with ((((((h1 | h2) | h3) | h4) | h5) | h6) | h7)
  · exact ne_qmark_of_mem_lit (by decide) h1
  · cases d
    · exact ne_qmark_of_mem_lit (by decide) h2
    · exact ne_qmark_of_mem_lit (by decide) h2
  · simp only [List.mem_singleton] at h3
    subst h3
    decide
  · exact hq c h4
  · exact ne_qmark_of_mem_lit (by decide) h5
  · exact isDigitChar_ne_qmark (hdig c h6)
  · simpa using List.mem_takeWhile_imp h7

/-- Witness for the amended C3 on a link with a query string: the query
is fully discarded and the canonical form remains. -/
theorem C3_rewritten_link_canonical_form_witness :
    modifySingleLink (statusLink false false false "Nefarious_Foxx".toList
        "1827".toList "?t=vz1&s=19".toList)
      = "https://fixupx.com/Nefarious_Foxx/status/1827".toList ∧
    (∀ c ∈ modifySingleLink (statusLink false false false "Nefarious_Foxx".toList
        "1827".toList "?t=vz1&s=19".toList), c ≠ '?') := by
  have h := C3_rewritten_link_canonical_form false false false
    "Nefarious_Foxx".toList "1827".toList "?t=vz1&s=19".toList
    (by decide) (by decide)
  refine ⟨?_, h.2⟩
  rw [h.1]
  decide

/-- Claim C4, counterexample: the main.go classifier counts a thumbnail
whose path contains `tweet_video_thumb` — its `isTwitterEmbed` has no
marker exclusion, so the message is judged sufficient. -/
theorem C4_counterexample :
    isTwitterEmbed ⟨[], none,
        some "https://pbs.twimg.com/tweet_video_thumb/Ab3.jpg".toList⟩ = true ∧
    hasValidTwitterEmbed [⟨[], none,
        some "https://pbs.twimg.com/tweet_video_thumb/Ab3.jpg".toList⟩] = true :=
  ⟨by decide, by decide⟩

/-- Claim C4 (amended): the marker exclusion exists only in the part_001
revision: there, a thumbnail URL containing `tweet_video_thumb` never
counts as a match — the embed is classified exactly as if it had no
thumbnail at all.  The main.go `isTwitterEmbed` has no such exclusion (see
the counterexample). -/
theorem C4_thumbnail_marker_not_counted (e : MessageEmbed) (u : List Char)
    (hthumb : e.Thumbnail = some u)
    (hmark : containsSub "tweet_video_thumb".toList u = true) :
    isWorkingTwitterEmbedP1 e = isWorkingTwitterEmbedP1 ⟨e.URL, e.Image, none⟩ := by
  obtain ⟨U, I, T⟩ := e
  simp only at hthumb
  subst hthumb
  have hu : u ≠ [] := by
    intro he
    subst he
    exact absurd hmark (by decide)
  unfold isWorkingTwitterEmbedP1
  cases h1 : (if U ≠ [] then cdnCheck3 U else none) with
  | some b => rfl
  | none =>
    cases h2 : (match I with
                | some v => if v ≠ [] then cdnCheck3 v else none
                | none => none) with
    | some b => rfl
    | none =>
      dsimp only
      rw [if_pos hu]
      rw [if_pos (show (containsSub "tweet_video_thumb".toList u
        || containsSub "amplify_video_thumb".toList u) = true by
          simp only [Bool.or_eq_true]
          exact Or.inl hmark)]

/-- Witness for the amended C4 on a concrete video-placeholder
thumbnail. -/
theorem C4_thumbnail_marker_not_counted_witness :
    isWorkingTwitterEmbedP1 ⟨[], none,
        some "https://pbs.twimg.com/tweet_video_thumb/Ab3.jpg".toList⟩
      = isWorkingTwitterEmbedP1 ⟨[], none, none⟩ :=
  C4_thumbnail_marker_not_counted _ _ rfl (by decide)

/-- Claim C5, counterexample: the main.go classifier has `abs.twimg.com`
in its CDN list, so a URL on that host is counted as a sufficient match
— not treated as merely non-matching. -/
theorem C5_counterexample :
    isTwitterEmbed ⟨"https://abs.twimg.com/x.png".toList, none, none⟩ = true ∧
    hasValidTwitterEmbed [⟨"https://abs.twimg.com/x.png".toList, none, none⟩]
      = true :=
  ⟨by decide, by decide⟩

/-- Claim C5 (amended): in the part_002 revision an embed URL whose
hostname ends in `abs.twimg.com` forces that whole embed to classify as
not working — its image and thumbnail URLs are skipped, not scanned —
while the scan does continue over the remaining embeds and the
attachments of the message. -/
theorem C5_abs_disqualifies_embed_P2 (u : List Char)
    (img thumb : Option (List Char)) (es : List MessageEmbed)
    (ats : List MessageAttachment) (hu : u ≠ [])
    (habs : hostHasSuffix u "abs.twimg.com".toList = true) :
    isWorkingTwitterEmbedP2 ⟨u, img, thumb⟩ = false ∧
    hasValidTwitterPreview (⟨u, img, thumb⟩ :: es) ats
      = hasValidTwitterPreview es ats := by
  have hc := cdnCheck3_abs habs
  have h1 : isWorkingTwitterEmbedP2 ⟨u, img, thumb⟩ = false := by
    unfold isWorkingTwitterEmbedP2
    dsimp only
    rw [if_pos hu, hc]
  refine ⟨h1, ?_⟩
  unfold hasValidTwitterPreview
  rw [List.any_cons, h1]
  simp

/-- Witness for the amended C5: an `abs.twimg.com` embed URL with a
working image URL behind it still classifies as not working, and the
scan proceeds to the rest of the message. -/
theorem C5_abs_disqualifies_embed_P2_witness :
    isWorkingTwitterEmbedP2 ⟨"https://abs.twimg.com/x.png".toList,
        some "https://pbs.twimg.com/y.jpg".toList, none⟩ = false ∧
    hasValidTwitterPreview [⟨"https://abs.twimg.com/x.png".toList,
        some "https://pbs.twimg.com/y.jpg".toList, none⟩] []
      = hasValidTwitterPreview [] [] :=
  C5_abs_disqualifies_embed_P2 _ _ _ [] [] (by decide) (by decide)

/-- Claim C6, counterexample: the main.go `hasValidTwitterEmbed` never
looks at attachments, so a message whose only preview artifact is a
`pbs.twimg.com` attachment is judged insufficient and a rewritten reply
is sent. -/
theorem C6_counterexample :
    hostnameOf "https://pbs.twimg.com/media/q.jpg".toList
      = "pbs.twimg.com".toList ∧
    messageReply ⟨"https://twitter.com/user/status/55".toList, [],
        [⟨"https://pbs.twimg.com/media/q.jpg".toList⟩], false⟩
      = some "https://fxtwitter.com/user/status/55".toList :=
  ⟨by decide, by decide⟩

/-- Claim C6 (amended): in the part_002 revision, attachments are
examined alongside embeds: any attachment hosted on `pbs.twimg.com`
makes the classifier report sufficient and suppresses the reply. -/
theorem C6_attachment_suppresses_reply_P2 (content : List Char)
    (embeds : List MessageEmbed) (atts : List MessageAttachment)
    (a : MessageAttachment) (hc : containsTwitterLink content = true)
    (ha : a ∈ atts)
    (hsuf : hostHasSuffix a.URL "pbs.twimg.com".toList = true) :
    hasValidTwitterPreview embeds atts = true ∧
    messageReplyP2 ⟨content, embeds, atts, false⟩ = none := by
  have hatt : isWorkingTwitterAttachment a = true := by
    unfold isWorkingTwitterAttachment cdnCheck3
    have hany : twitterCDNs3.any (fun cdn => hostHasSuffix a.URL cdn) = true := by
      apply List.any_eq_true.mpr
      exact ⟨"pbs.twimg.com".toList, by simp [twitterCDNs3], hsuf⟩
    rw [hany]
    simp
  have hprev : hasValidTwitterPreview embeds atts = true := by
    unfold hasValidTwitterPreview
    have : atts.any isWorkingTwitterAttachment = true :=
      List.any_eq_true.mpr ⟨a, ha, hatt⟩
    rw [this]
    simp
  have hhello : content ≠ "hello".toList := by
    intro he
    rw [he] at hc
    exact absurd hc (by decide)
  replace hhello : content ≠ ['h', 'e', 'l', 'l', 'o'] := by simpa using hhello
  refine ⟨hprev, ?_⟩
  unfold messageReplyP2
  simp [hhello, hc, hprev]

/-- Witness for the amended C6: a qualifying link plus a
`pbs.twimg.com` attachment yields no reply from the part_002 handler. -/
theorem C6_attachment_suppresses_reply_P2_witness :
    hasValidTwitterPreview []
        [⟨"https://pbs.twimg.com/media/q.jpg".toList⟩] = true ∧
    messageReplyP2 ⟨"https://twitter.com/user/status/55".toList, [],
        [⟨"https://pbs.twimg.com/media/q.jpg".toList⟩], false⟩ = none :=
  C6_attachment_suppresses_reply_P2 _ [] _ ⟨"https://pbs.twimg.com/media/q.jpg".toList⟩
    (by decide) (by decide) (by decide)
